import Mathlib

/-!
# Verification of the NRDC Missing Anchors dashboard

Shallow embedding of `src/pages/2_NRDC_Missing_Anchors.py`, a single-page
dashboard that loads a CSV of anchor records, filters them by a numeric
distance range and a set of market labels, computes four scalar aggregates,
renders charts and a table, and serializes views back to CSV.

Modelling conventions:
* A pandas float cell is an `Option ℚ`: `none` stands for the missing-value
  marker NaN (every ordered comparison against NaN is false, which `none`
  reproduces below), `some q` for a finite numeric value.
* Dataframes are ordered lists of records; boolean-mask selection
  (`df[mask]`) is embedded explicitly as `maskSelect` over a `List Bool`
  computed column-wise, exactly as the source combines three masks with `&`.
* CSV text is a `List Char`; `to_csv(index=False)` is `encodeCSV` with
  minimal quoting (a field is quoted iff it holds a comma, quote, LF or CR,
  inner quotes doubled), and re-parsing is `parseCSV`, which skips blank
  lines as `read_csv` does.
* The Streamlit page run is a pure function from the (optional) input file,
  the widget state and the memoization cache to a list of UI elements.
-/

namespace NRDC

/-- One row of the loaded dataframe: the `Distance` cell after
`pd.to_numeric(.., errors='coerce')` (`none` = NaN), the `Market` label, and
the remaining passthrough cells in column order. -/
structure Record where
  distance : Option ℚ
  market : String
  extra : List String
  deriving DecidableEq, Repr

/-- `series >= x` on an `Option ℚ` cell: NaN compares false. -/
def cellGe (d : Option ℚ) (x : ℚ) : Bool :=
  match d with
  | some v => decide (x ≤ v)
  | none => false

/-- `series <= x` on an `Option ℚ` cell: NaN compares false. -/
def cellLe (d : Option ℚ) (x : ℚ) : Bool :=
  match d with
  | some v => decide (v ≤ x)
  | none => false

/-- The boolean series `df['Distance'] >= lo`. -/
def seriesGe (df : List Record) (lo : ℚ) : List Bool :=
  df.map (fun r => cellGe r.distance lo)

/-- The boolean series `df['Distance'] <= hi`. -/
def seriesLe (df : List Record) (hi : ℚ) : List Bool :=
  df.map (fun r => cellLe r.distance hi)

/-- The boolean series `df['Market'].isin(selected)`. -/
def seriesIsin (df : List Record) (sel : List String) : List Bool :=
  df.map (fun r => sel.contains r.market)

/-- Elementwise `&` of two boolean series. -/
def andMask (a b : List Bool) : List Bool :=
  List.zipWith and a b

/-- Boolean-mask row selection `df[mask]`: keep the rows whose mask bit is
true, in order. -/
def maskSelect : List Record → List Bool → List Record
  | [], _ => []
  | _ :: _, [] => []
  | r :: rs, b :: bs => if b then r :: maskSelect rs bs else maskSelect rs bs

/-- The Filter Stage of the script:
`df[(df['Distance'] >= lo) & (df['Distance'] <= hi) & (df['Market'].isin(sel))]`. -/
def filtered_df (df : List Record) (lo hi : ℚ) (sel : List String) : List Record :=
  maskSelect df
    (andMask (andMask (seriesGe df lo) (seriesLe df hi)) (seriesIsin df sel))

/-- The row predicate the spec states for the Filter Stage: the distance is a
present numeric value lying in the closed interval, and the market is in the
selected set. -/
def specPass (lo hi : ℚ) (sel : List String) (r : Record) : Bool :=
  (match r.distance with
   | some d => decide (lo ≤ d) && decide (d ≤ hi)
   | none => false) && decide (r.market ∈ sel)

/-! ## Aggregation Stage

`len(filtered_df)`, `filtered_df['Market'].nunique()`,
`filtered_df['Distance'].mean()` and `filtered_df['Distance'].max()`.
Pandas mean/max skip NaN and give NaN on an empty column, which the model
renders as `none`. -/

/-- The present (non-NaN) values of the `Distance` column. -/
def distanceValues (df : List Record) : List ℚ :=
  df.filterMap (fun r => r.distance)

/-- `df['Market'].nunique()`: number of distinct market labels. -/
def nuniqueMarkets (df : List Record) : Nat :=
  ((df.map (fun r => r.market)).dedup).length

/-- `df['Distance'].mean()` with NaN skipped; `none` models the NaN result on
an empty column. -/
def meanDistance (df : List Record) : Option ℚ :=
  let vals := distanceValues df
  if vals.isEmpty then none else some (vals.sum / (vals.length : ℚ))

/-- `df['Distance'].max()` with NaN skipped; `none` models the NaN result on
an empty column. -/
def maxDistance (df : List Record) : Option ℚ :=
  (distanceValues df).foldl
    (fun acc d => match acc with | none => some d | some m => some (max m d)) none

/-- `df['Distance'].min()` with NaN skipped (used for the slider lower
bound). -/
def minDistance (df : List Record) : Option ℚ :=
  (distanceValues df).foldl
    (fun acc d => match acc with | none => some d | some m => some (min m d)) none

/-! ## Data Loader

`load_data` reads the CSV when the file exists, coerces the `Distance`
column with `pd.to_numeric(errors='coerce')`, and returns an empty dataframe
(plus sidebar diagnostics) when it does not. The numeric coercion is modelled
for plain signed decimal literals; every other cell text becomes `none`
(NaN), which is all the claims depend on. -/

/-- A raw cell text of the input file, before numeric coercion. -/
def isDigitChar (c : Char) : Bool :=
  decide ('0' ≤ c) && decide (c ≤ '9')

/-- Value of a digit string read left to right. -/
def digitsToNat (l : List Char) : Nat :=
  l.foldl (fun a c => 10 * a + (c.toNat - 48)) 0

/-- Model of `pd.to_numeric(cell, errors='coerce')` on one cell: parses an
optional sign, an integer part and an optional fractional part; any other
shape coerces to the missing marker `none`. -/
def toNumericCoerce (s : String) : Option ℚ :=
  let cs := s.data
  let signAndBody : Bool × List Char :=
    match cs with
    | '-' :: rest => (true, rest)
    | '+' :: rest => (false, rest)
    | _ => (false, cs)
  let applySign : ℚ → ℚ := fun q => if signAndBody.1 then -q else q
  let body := signAndBody.2
  let intPart := body.takeWhile isDigitChar
  let rest := body.dropWhile isDigitChar
  match rest with
  | [] =>
      if body.isEmpty then none else some (applySign (digitsToNat intPart : ℚ))
  | '.' :: frac =>
      if frac.all isDigitChar && (!intPart.isEmpty || !frac.isEmpty) then
        some (applySign ((digitsToNat intPart : ℚ) +
          (digitsToNat frac : ℚ) / ((10 : ℚ) ^ frac.length)))
      else none
  | _ => none

/-- One raw row of the input CSV, per the input interface: a `Distance` cell
(any text), a `Market` label, and the remaining cells. -/
structure RawRecord where
  distanceCell : String
  market : String
  extra : List String
  deriving DecidableEq, Repr

/-- The parsed input file: the names of the passthrough columns and the data
rows. -/
structure RawTable where
  extraCols : List String
  rows : List RawRecord
  deriving DecidableEq, Repr

/-- Numeric coercion of one raw row, as done by
`df['Distance'] = pd.to_numeric(df['Distance'], errors='coerce')`. -/
def coerceRecord (rr : RawRecord) : Record :=
  ⟨toNumericCoerce rr.distanceCell, rr.market, rr.extra⟩

/-- The UI elements a page run can emit, in emission order. -/
inductive UIElem where
  | sidebarPathInfo
  | sidebarFileFound
  | sidebarFileError
  | sidebarDirListing (files : List String)
  | errorBanner
  | pageTitle
  | pageInfo
  | sidebarHeader
  | slider (lo hi : Option ℚ)
  | multiselect (options : List String)
  | metricNat (label : String) (value : Nat)
  | metricRat (label : String) (value : Option ℚ)
  | barChart (counts : List (String × Nat))
  | histogram (values : List ℚ)
  | dataTable (rows : List Record)
  | downloadButton (fileName : String) (content : List Char)
  | selectbox (options : List String)
  deriving DecidableEq, Repr

/-- `load_data()`: when the file exists, read it and coerce `Distance`;
otherwise report the failure in the sidebar, list the directory, and return
an empty dataframe. The first component is the dataframe, the second the
sidebar elements written while loading. -/
def load_data (fsFile : Option RawTable) (listing : List String) :
    List Record × List UIElem :=
  match fsFile with
  | some t =>
      (t.rows.map coerceRecord, [.sidebarPathInfo, .sidebarFileFound])
  | none =>
      ([], [.sidebarPathInfo, .sidebarFileError, .sidebarDirListing listing])

/-! ## CSV serialization (`to_csv(index=False).encode('utf-8')`)

The writer uses minimal quoting: a field is quoted exactly when it holds a
delimiter, a quote, or a line-break character, and inner quotes are doubled.
Each row, the header included, is terminated by a line feed, and no index
column is emitted. The reader (`pd.read_csv` on such text) is modelled by
`parseCSV`, which skips blank lines. -/

/-- A field must be quoted when it holds `,`, `"`, LF or CR. -/
def needsQuote (f : List Char) : Bool :=
  f.any (fun c => c == ',' || c == '"' || c == '\n' || c == '\r')

/-- Quote-doubling for one character inside a quoted field. -/
def escapeChar (c : Char) : List Char :=
  if c = '"' then ['"', '"'] else [c]

/-- Quote-doubling applied to a whole field. -/
def escapeField (f : List Char) : List Char :=
  f.flatMap escapeChar

/-- Encode one field with minimal quoting. -/
def encodeField (f : List Char) : List Char :=
  if needsQuote f then '"' :: (escapeField f ++ ['"']) else f

/-- Encode one row: fields joined by commas. -/
def encodeRow : List (List Char) → List Char
  | [] => []
  | [f] => encodeField f
  | f :: fs => encodeField f ++ ',' :: encodeRow fs

/-- Encode a grid: each row followed by a line feed. -/
def encodeCSV : List (List (List Char)) → List Char
  | [] => []
  | row :: rows => encodeRow row ++ '\n' :: encodeCSV rows

/-- Read the body of a quoted field, the opening quote already consumed:
a doubled quote stands for a literal quote, a single quote closes the field.
Returns the field text and the unread remainder. -/
def parseQuoted : List Char → List Char × List Char
  | [] => ([], [])
  | '"' :: '"' :: rest =>
      let p := parseQuoted rest
      ('"' :: p.1, p.2)
  | '"' :: rest => ([], rest)
  | c :: rest =>
      let p := parseQuoted rest
      (c :: p.1, p.2)

/-- Read an unquoted field: everything up to the next comma or line feed,
which is left unread. -/
def parseUnquoted : List Char → List Char × List Char
  | [] => ([], [])
  | c :: rest =>
      if c = ',' || c = '\n' then ([], c :: rest)
      else
        let p := parseUnquoted rest
        (c :: p.1, p.2)

/-- Read one field: an opening quote starts a quoted field, anything else an
unquoted one. -/
def fieldStep : List Char → List Char × List Char
  | [] => ([], [])
  | c :: rest => if c = '"' then parseQuoted rest else parseUnquoted (c :: rest)

theorem parseQuoted_rest_le (l : List Char) : (parseQuoted l).2.length ≤ l.length := by
  induction l using parseQuoted.induct with
  | case1 => simp [parseQuoted]
  | case2 rest ih => simp [parseQuoted]; omega
  | case3 rest => simp [parseQuoted]
  | case4 c rest h1 h2 ih =>
      rw [parseQuoted]
      · simpa using Nat.le_succ_of_le ih
      · exact h1
      · exact h2

theorem parseUnquoted_rest_le (l : List Char) : (parseUnquoted l).2.length ≤ l.length := by
  induction l with
  | nil => simp [parseUnquoted]
  | cons c rest ih =>
      rw [parseUnquoted]
      by_cases h : c = ',' || c = '\n'
      · simp [h]
      · simp [h]
        omega

theorem fieldStep_rest_le (l : List Char) : (fieldStep l).2.length ≤ l.length := by
  match l with
  | [] => simp [fieldStep]
  | c :: rest =>
      rw [fieldStep]
      by_cases h : c = '"'
      · simpa [h] using Nat.le_succ_of_le (parseQuoted_rest_le rest)
      · simpa [h] using parseUnquoted_rest_le (c :: rest)

/-- Read one row: fields separated by commas, terminated by a line feed or
the end of input. Returns the fields and the unread remainder. Text after a
closing quote that is neither a separator nor a line feed ends the row (the
writer never produces it). -/
def parseRowAux (l : List Char) : List (List Char) × List Char :=
  match hs : (fieldStep l).2 with
  | [] => ([(fieldStep l).1], [])
  | c :: rest =>
      if c = ',' then
        ((fieldStep l).1 :: (parseRowAux rest).1, (parseRowAux rest).2)
      else if c = '\n' then ([(fieldStep l).1], rest)
      else ([(fieldStep l).1], [])
termination_by l.length
decreasing_by
  all_goals
    have hle := fieldStep_rest_le l
    rw [hs] at hle
    simp at hle
    omega

theorem parseRowAux_end (l : List Char) (h : (fieldStep l).2 = []) :
    parseRowAux l = ([(fieldStep l).1], []) := by
  rw [parseRowAux]
  split
  · rfl
  · rename_i c rest hs
    rw [h] at hs
    exact absurd hs (by simp)

theorem parseRowAux_comma (l rest : List Char) (h : (fieldStep l).2 = ',' :: rest) :
    parseRowAux l = ((fieldStep l).1 :: (parseRowAux rest).1, (parseRowAux rest).2) := by
  rw [parseRowAux]
  split
  · rename_i hs
    rw [h] at hs
    exact absurd hs (by simp)
  · rename_i c rest2 hs
    rw [h] at hs
    injection hs with hc hr
    subst hc
    subst hr
    simp

theorem parseRowAux_newline (l rest : List Char) (h : (fieldStep l).2 = '\n' :: rest) :
    parseRowAux l = ([(fieldStep l).1], rest) := by
  rw [parseRowAux]
  split
  · rename_i hs
    rw [h] at hs
    exact absurd hs (by simp)
  · rename_i c rest2 hs
    rw [h] at hs
    injection hs with hc hr
    subst hc
    subst hr
    simp

theorem parseRowAux_rest_le :
    ∀ (n : Nat) (l : List Char), l.length = n → (parseRowAux l).2.length ≤ l.length := by
  intro n
  induction n using Nat.strong_induction_on with
  | _ n ih =>
    intro l hl
    have hle := fieldStep_rest_le l
    match h : (fieldStep l).2 with
    | [] => rw [parseRowAux_end l h]; simp
    | c :: rest =>
        rw [h] at hle
        simp at hle
        by_cases hc : c = ','
        · subst hc
          rw [parseRowAux_comma l rest h]
          have := ih rest.length (by omega) rest rfl
          simp only []
          omega
        · by_cases hn : c = '\n'
          · subst hn
            rw [parseRowAux_newline l rest h]
            simp only []
            omega
          · rw [parseRowAux]
            split
            · simp
            · rename_i c2 rest2 hs
              rw [h] at hs
              injection hs with hc2 hr2
              subst hc2
              subst hr2
              simp [hc, hn]

theorem parseRowAux_rest_lt (l : List Char) (hne : l ≠ []) :
    (parseRowAux l).2.length < l.length := by
  have hlen : 0 < l.length := List.length_pos.mpr hne
  have hle := fieldStep_rest_le l
  match h : (fieldStep l).2 with
  | [] => rw [parseRowAux_end l h]; simpa using hlen
  | c :: rest =>
      rw [h] at hle
      simp at hle
      by_cases hc : c = ','
      · subst hc
        rw [parseRowAux_comma l rest h]
        have := parseRowAux_rest_le rest.length rest rfl
        simp only []
        omega
      · by_cases hn : c = '\n'
        · subst hn
          rw [parseRowAux_newline l rest h]
          simp only []
          omega
        · rw [parseRowAux]
          split
          · simpa using hlen
          · rename_i c2 rest2 hs
            rw [h] at hs
            injection hs with hc2 hr2
            subst hc2
            subst hr2
            simpa [hc, hn] using hlen

/-- Read a whole CSV text into a grid of fields, skipping blank lines as
`pd.read_csv` does. -/
def parseCSV : List Char → List (List (List Char))
  | [] => []
  | c :: rest =>
      if c = '\n' then parseCSV rest
      else
        let p := parseRowAux (c :: rest)
        p.1 :: parseCSV p.2
termination_by l => l.length
decreasing_by
  · simp
  · exact parseRowAux_rest_lt (c :: rest) (by simp)

/-- A grid row that survives the round trip: it has at least one field and is
not the lone empty field (whose encoding is a blank line, which `read_csv`
skips). Every row persisted by the dashboard has at least the `Distance` and
`Market` cells, hence satisfies this. -/
def goodRow (row : List (List Char)) : Prop :=
  row ≠ [] ∧ row ≠ [[]]

/-! ## Export Stage and page rendering -/

/-- Text of one `Distance` cell in an exported CSV: NaN prints as the empty
cell, a value as its exact rational literal (the decimal shape pandas gives
a float is abstracted to an injective numeral form). -/
def distanceCellText : Option ℚ → List Char
  | none => []
  | some q =>
      (toString q.num).data ++ (if q.den = 1 then [] else '/' :: (toString q.den).data)

/-- The cells of one record, in column order: `Distance`, `Market`, then the
passthrough columns. -/
def recordCells (r : Record) : List (List Char) :=
  distanceCellText r.distance :: r.market.data :: r.extra.map String.data

/-- The header row of an exported CSV. -/
def headerCells (cols : List String) : List (List Char) :=
  "Distance".data :: "Market".data :: cols.map String.data

/-- The grid a dataframe view exports: header row first, then one row per
record, no index column. -/
def viewGrid (df : List Record) (cols : List String) : List (List (List Char)) :=
  headerCells cols :: df.map recordCells

/-- `view.to_csv(index=False).encode('utf-8')`: the CSV text of a view. -/
def to_csv (df : List Record) (cols : List String) : List Char :=
  encodeCSV (viewGrid df cols)

/-- The boolean series `df['Market'] == m`. -/
def seriesEqMarket (df : List Record) (m : String) : List Bool :=
  df.map (fun r => r.market == m)

/-- The rows of the targeted market export: `df[df['Market'] == m]` over the
full, unfiltered dataframe. -/
def marketRows (df : List Record) (m : String) : List Record :=
  maskSelect df (seriesEqMarket df m)

/-- `df[df['Market'] == m].to_csv(index=False).encode('utf-8')`: the targeted
market report. -/
def market_csv (df : List Record) (m : String) (cols : List String) : List Char :=
  to_csv (marketRows df m) cols

/-- `df['Market'].value_counts()` reshaped for the bar chart: one entry per
distinct market with its row count (the count-descending display order of
`value_counts` is abstracted to first-appearance order). -/
def marketCounts (df : List Record) : List (String × Nat) :=
  ((df.map (fun r => r.market)).dedup).map
    (fun m => (m, (df.map (fun r => r.market)).count m))

/-- The widget state of one rendering pass: the slider range, the selected
markets of the multiselect, and the market chosen in the export selectbox. -/
structure WidgetState where
  lo : ℚ
  hi : ℚ
  selected : List String
  marketChoice : String
  deriving DecidableEq, Repr

/-- The dashboard body rendered when the dataframe is non-empty: title and
info, sidebar filters, the four metrics over the filtered view, the two
charts, the data table, and the two download buttons. -/
def renderBody (df : List Record) (cols : List String) (w : WidgetState) : List UIElem :=
  let all_markets := List.insertionSort (fun a b => a ≤ b) (df.map (fun r => r.market)).dedup
  let fdf := filtered_df df w.lo w.hi w.selected
  [.pageTitle, .pageInfo, .sidebarHeader,
   .slider (minDistance df) (maxDistance df),
   .multiselect all_markets,
   .metricNat "Total Records" fdf.length,
   .metricNat "Unique Markets" (nuniqueMarkets fdf),
   .metricRat "Avg Distance" (meanDistance fdf),
   .metricRat "Max Distance" (maxDistance fdf),
   .barChart (marketCounts fdf),
   .histogram (distanceValues fdf),
   .dataTable fdf,
   .downloadButton "nrdc_filtered_view.csv" (to_csv fdf cols),
   .selectbox all_markets,
   .downloadButton (String.append (String.append "market_" w.marketChoice) "_report.csv")
     (market_csv df w.marketChoice cols)]

/-- The `st.cache_data` memoization state: the dataframe returned by the
first `load_data()` call of the process, if any run happened yet. -/
structure SessionState where
  cache : Option (List Record)
  deriving DecidableEq, Repr

/-- `load_data()` through the `st.cache_data` wrapper: a cache hit returns
the stored dataframe without re-reading the file (and without re-emitting
the loader's sidebar messages); a miss runs `load_data` and stores its
result. -/
def cachedLoad (st : SessionState) (fsFile : Option RawTable) (listing : List String) :
    SessionState × List Record × List UIElem :=
  match st.cache with
  | some df => (st, df, [])
  | none =>
      let r := load_data fsFile listing
      (⟨some r.1⟩, r.1, r.2)

/-- One full top-to-bottom run of the script against the memoization state:
load (through the cache), then either the error banner (empty dataframe) or
the dashboard body. Returns the state after the run and the emitted UI. -/
def runSession (st : SessionState) (fsFile : Option RawTable) (listing : List String)
    (w : WidgetState) : SessionState × List UIElem :=
  let (st2, df, sideUI) := cachedLoad st fsFile listing
  let cols := match fsFile with | some t => t.extraCols | none => []
  if df.isEmpty then
    (st2, sideUI ++ [.errorBanner])
  else
    (st2, sideUI ++ renderBody df cols w)

/-- The first run of a fresh process: empty cache. -/
def runScript (fsFile : Option RawTable) (listing : List String) (w : WidgetState) :
    List UIElem :=
  (runSession ⟨none⟩ fsFile listing w).2

/-- The scenario dataset of the spec: three records with distances 1, 5, 9
and markets A, B, A. -/
def exampleDataset : List Record :=
  [⟨some 1, "A", []⟩, ⟨some 5, "B", []⟩, ⟨some 9, "A", []⟩]

/-- An input file holding one unparseable `Distance` cell and one plain
numeric cell. -/
def rawMissingExample : RawTable :=
  ⟨[], [⟨"abc", "A", []⟩, ⟨"1", "A", []⟩]⟩

/-- The dataframe loaded from `rawMissingExample`: the first row's distance
is the missing marker, the second is 1. -/
def missingExampleDf : List Record :=
  (load_data (some rawMissingExample) []).1

/-! ## Round-trip lemmas for the CSV codec -/

theorem parseQuoted_dquote (rest : List Char) :
    parseQuoted ('"' :: '"' :: rest) =
      ('"' :: (parseQuoted rest).1, (parseQuoted rest).2) := rfl

theorem parseQuoted_close_cons (c : Char) (rest : List Char) (h : c ≠ '"') :
    parseQuoted ('"' :: c :: rest) = ([], c :: rest) := by
  simp [parseQuoted, h]

theorem parseQuoted_other (c : Char) (rest : List Char) (h : c ≠ '"') :
    parseQuoted (c :: rest) =
      (c :: (parseQuoted rest).1, (parseQuoted rest).2) := by
  simp [parseQuoted, h]

/-- Reading a quoted body undoes quote-doubling: the closing quote must not
be followed by another quote, which the writer guarantees (a separator or
line feed always follows). -/
theorem parseQuoted_escape (f rest : List Char) (h : rest.head? ≠ some '"') :
    parseQuoted (escapeField f ++ '"' :: rest) = (f, rest) := by
  induction f with
  | nil =>
      simp only [escapeField, List.flatMap_nil, List.nil_append]
      cases rest with
      | nil => rfl
      | cons c cs =>
          have hc : c ≠ '"' := by
            intro hcq
            exact h (by simp [hcq])
          exact parseQuoted_close_cons c cs hc
  | cons a f ih =>
      by_cases ha : a = '"'
      · subst ha
        have he : escapeChar '"' = ['"', '"'] := rfl
        simp only [escapeField] at ih ⊢
        simp only [List.flatMap_cons, he, List.cons_append, List.nil_append]
        rw [parseQuoted_dquote, ih]
      · have he : escapeChar a = [a] := by simp [escapeChar, ha]
        simp only [escapeField] at ih ⊢
        simp only [List.flatMap_cons, he, List.cons_append, List.nil_append]
        rw [parseQuoted_other a _ ha, ih]

/-- Reading an unquoted field stops exactly at the following separator or
line feed, provided the field itself holds neither. -/
theorem parseUnquoted_clean (f rest : List Char)
    (hf : ∀ c ∈ f, c ≠ ',' ∧ c ≠ '\n')
    (hr : rest = [] ∨ rest.head? = some ',' ∨ rest.head? = some '\n') :
    parseUnquoted (f ++ rest) = (f, rest) := by
  induction f with
  | nil =>
      simp only [List.nil_append]
      rcases hr with hr | hr | hr
      · subst hr; rfl
      · cases rest with
        | nil => simp at hr
        | cons c cs =>
            simp only [List.head?_cons, Option.some_inj] at hr
            subst hr
            simp [parseUnquoted]
      · cases rest with
        | nil => simp at hr
        | cons c cs =>
            simp only [List.head?_cons, Option.some_inj] at hr
            subst hr
            simp [parseUnquoted]
  | cons a f ih =>
      have ha := hf a (by simp)
      rw [List.cons_append, parseUnquoted]
      have hcond : ¬(a = ',' || a = '\n') = true := by
        simp [ha.1, ha.2]
      simp only [hcond, if_neg, Bool.false_eq_true, not_false_eq_true, if_false]
      rw [ih (fun c hc => hf c (by simp [hc]))]

theorem needsQuote_false_mem (f : List Char) (hq : needsQuote f = false) :
    ∀ c ∈ f, c ≠ ',' ∧ c ≠ '"' ∧ c ≠ '\n' ∧ c ≠ '\r' := by
  intro c hc
  have := List.any_eq_false.mp hq c hc
  simp at this
  tauto

/-- Reading back one encoded field recovers it, when a separator, a line
feed or the end of text follows. -/
theorem fieldStep_encode (f rest : List Char)
    (hr : rest = [] ∨ rest.head? = some ',' ∨ rest.head? = some '\n') :
    fieldStep (encodeField f ++ rest) = (f, rest) := by
  have hrq : rest.head? ≠ some '"' := by
    rcases hr with hr | hr | hr <;> simp [hr]
  by_cases hq : needsQuote f
  · simp only [encodeField, if_pos hq]
    rw [List.cons_append, fieldStep, if_pos rfl, List.append_assoc,
      List.singleton_append]
    exact parseQuoted_escape f rest hrq
  · simp only [encodeField, if_neg hq]
    have hmem := needsQuote_false_mem f (by simpa using hq)
    cases f with
    | nil =>
        simp only [List.nil_append]
        cases rest with
        | nil => rfl
        | cons c cs =>
            have hc : c ≠ '"' := by
              intro hcq
              exact hrq (by simp [hcq])
            rw [fieldStep, if_neg hc]
            exact parseUnquoted_clean [] (c :: cs) (by simp) hr
    | cons a f2 =>
        have ha := hmem a (by simp)
        rw [List.cons_append, fieldStep, if_neg ha.2.1, ← List.cons_append]
        exact parseUnquoted_clean (a :: f2) rest
          (fun c hc => ⟨(hmem c hc).1, (hmem c hc).2.2.1⟩) hr

/-- Reading back one encoded row (followed by its line feed) recovers its
fields and leaves the remainder unread. -/
theorem parseRowAux_encode (row : List (List Char)) (hrow : row ≠ []) (rest : List Char) :
    parseRowAux (encodeRow row ++ '\n' :: rest) = (row, rest) := by
  induction row with
  | nil => exact absurd rfl hrow
  | cons f fs ih =>
      cases fs with
      | nil =>
          have hstep := fieldStep_encode f ('\n' :: rest) (by simp)
          rw [show encodeRow [f] = encodeField f from rfl]
          rw [parseRowAux_newline _ rest (by rw [hstep]), hstep]
      | cons f2 fs2 =>
          have hrest :
              encodeRow (f :: f2 :: fs2) ++ '\n' :: rest =
                encodeField f ++ ',' :: (encodeRow (f2 :: fs2) ++ '\n' :: rest) := by
            rw [show encodeRow (f :: f2 :: fs2) =
              encodeField f ++ ',' :: encodeRow (f2 :: fs2) from rfl]
            simp
          have hstep := fieldStep_encode f (',' :: (encodeRow (f2 :: fs2) ++ '\n' :: rest))
            (by simp)
          rw [hrest, parseRowAux_comma _ _ (by rw [hstep]), hstep,
            ih (by simp)]

/-- An encoded row that is neither empty nor a lone empty field starts with a
character other than a line feed (so the reader does not skip it as a blank
line). -/
theorem encodeRow_head (row : List (List Char)) (h1 : row ≠ []) (h2 : row ≠ [[]]) :
    ∃ c cs, encodeRow row = c :: cs ∧ c ≠ '\n' := by
  have hfield : ∀ f : List Char, f ≠ [] → ∃ c cs, encodeField f = c :: cs ∧ c ≠ '\n' := by
    intro f hf
    by_cases hq : needsQuote f
    · exact ⟨'"', escapeField f ++ ['"'], by simp [encodeField, hq], by decide⟩
    · cases f with
      | nil => exact absurd rfl hf
      | cons a f2 =>
          have ha := needsQuote_false_mem (a :: f2) (by simpa using hq) a (by simp)
          exact ⟨a, f2, by simp [encodeField, hq], ha.2.2.1⟩
  cases row with
  | nil => exact absurd rfl h1
  | cons f fs =>
      cases fs with
      | nil =>
          have hf : f ≠ [] := by
            intro hfe
            exact h2 (by rw [hfe])
          obtain ⟨c, cs, hc, hcn⟩ := hfield f hf
          exact ⟨c, cs, by rw [show encodeRow [f] = encodeField f from rfl, hc], hcn⟩
      | cons f2 fs2 =>
          rw [show encodeRow (f :: f2 :: fs2) =
            encodeField f ++ ',' :: encodeRow (f2 :: fs2) from rfl]
          by_cases hf : f = []
          · subst hf
            by_cases hq : needsQuote []
            · simp [needsQuote] at hq
            · exact ⟨',', encodeRow (f2 :: fs2), by simp [encodeField, hq], by decide⟩
          · obtain ⟨c, cs, hc, hcn⟩ := hfield f hf
            exact ⟨c, cs ++ ',' :: encodeRow (f2 :: fs2), by simp [hc], hcn⟩

/-- Round trip at the grid level: writing rows out and reading the text back
recovers exactly the original grid. -/
theorem parseCSV_encodeCSV (rows : List (List (List Char)))
    (h : ∀ row ∈ rows, goodRow row) :
    parseCSV (encodeCSV rows) = rows := by
  induction rows with
  | nil => rw [show encodeCSV [] = [] from rfl, parseCSV]
  | cons row rows ih =>
      have hrow := h row (by simp)
      obtain ⟨c, cs, hc, hcn⟩ := encodeRow_head row hrow.1 hrow.2
      have hparse := parseRowAux_encode row hrow.1 (encodeCSV rows)
      rw [show encodeCSV (row :: rows) = encodeRow row ++ '\n' :: encodeCSV rows
        from rfl]
      rw [hc] at hparse ⊢
      rw [List.cons_append, parseCSV, if_neg hcn, ← List.cons_append, hparse]
      exact congrArg _ (ih (fun r hr => h r (by simp [hr])))

/-! ## Filter Stage lemmas -/

theorem maskSelect_map (p : Record → Bool) :
    ∀ df : List Record, maskSelect df (df.map p) = df.filter p := by
  intro df
  induction df with
  | nil => rfl
  | cons r rs ih =>
      simp only [List.map_cons, maskSelect, List.filter_cons, ih]

theorem andMask_map (f g : Record → Bool) (df : List Record) :
    andMask (df.map f) (df.map g) = df.map (fun r => f r && g r) := by
  induction df with
  | nil => rfl
  | cons r rs ih => simp [andMask] at ih ⊢

/-- The mask-combination the script performs is pointwise conjunction, so the
Filter Stage is list filtering by the row predicate. -/
theorem filtered_df_eq_filter (df : List Record) (lo hi : ℚ) (sel : List String) :
    filtered_df df lo hi sel = df.filter (specPass lo hi sel) := by
  unfold filtered_df seriesGe seriesLe seriesIsin
  rw [andMask_map, andMask_map, maskSelect_map]
  apply List.filter_congr
  intro r _
  simp only [specPass, cellGe, cellLe, List.contains, List.elem_eq_mem]
  cases r.distance <;> simp

/-- Every row a view grid can hold has at least two cells. -/
theorem goodRow_cons2 (a b : List Char) (t : List (List Char)) : goodRow (a :: b :: t) := by
  constructor
  · simp
  · simp

/-- Writing any dataframe view to CSV and reading it back gives exactly its
grid: the header first, then the rows in order. -/
theorem parseCSV_to_csv (df : List Record) (cols : List String) :
    parseCSV (to_csv df cols) = viewGrid df cols := by
  apply parseCSV_encodeCSV
  intro row hrow
  rw [viewGrid] at hrow
  rcases List.mem_cons.mp hrow with h | h
  · subst h
    exact goodRow_cons2 _ _ _
  · obtain ⟨r, _, hr⟩ := List.mem_map.mp h
    rw [← hr]
    exact goodRow_cons2 _ _ _

/-! ## Claims -/

/-- C1: for every dataset, every closed interval with `lo ≤ hi` and every
set of market labels, the Filter Stage returns exactly the subsequence of
dataset rows, in their original order, whose distance is a present value
with `lo ≤ d ≤ hi` (both ends inclusive) and whose market is in the
selection. -/
theorem filtered_df_spec (df : List Record) (lo hi : ℚ) (sel : List String)
    (_hle : lo ≤ hi) :
    filtered_df df lo hi sel = df.filter (specPass lo hi sel) ∧
      List.Sublist (filtered_df df lo hi sel) df := by
  have h := filtered_df_eq_filter df lo hi sel
  refine ⟨h, ?_⟩
  rw [h]
  exact List.filter_sublist df

theorem filtered_df_spec_witness :
    (0 : ℚ) ≤ 6 ∧
      (filtered_df exampleDataset 0 6 ["A", "B"] =
          exampleDataset.filter (specPass 0 6 ["A", "B"]) ∧
        List.Sublist (filtered_df exampleDataset 0 6 ["A", "B"]) exampleDataset) :=
  ⟨by norm_num, filtered_df_spec exampleDataset 0 6 ["A", "B"] (by norm_num)⟩

/-- C2: whatever the dataset and the distance range, an empty market
selection gives an empty filtered view: the `isin` mask is everywhere false,
nothing defaults to all markets. -/
theorem empty_selection_empty_view (df : List Record) (lo hi : ℚ) :
    filtered_df df lo hi [] = [] := by
  rw [filtered_df_eq_filter]
  induction df with
  | nil => rfl
  | cons r rs ih => simp [List.filter_cons, specPass, ih]

/-- C3: when the filtered view is empty the Aggregation Stage still yields a
value for each metric: row count 0, distinct markets 0, and the defined
missing-value representation for mean and maximum distance — nothing is
raised, since the aggregates are total. -/
theorem empty_view_aggregates (df : List Record) (lo hi : ℚ) (sel : List String)
    (h : filtered_df df lo hi sel = []) :
    (filtered_df df lo hi sel).length = 0 ∧
      nuniqueMarkets (filtered_df df lo hi sel) = 0 ∧
      meanDistance (filtered_df df lo hi sel) = none ∧
      maxDistance (filtered_df df lo hi sel) = none := by
  rw [h]
  exact ⟨rfl, rfl, rfl, rfl⟩

theorem empty_view_aggregates_witness :
    filtered_df [] 0 0 [] = [] ∧
      ((filtered_df [] 0 0 []).length = 0 ∧
        nuniqueMarkets (filtered_df [] 0 0 []) = 0 ∧
        meanDistance (filtered_df [] 0 0 []) = none ∧
        maxDistance (filtered_df [] 0 0 []) = none) :=
  ⟨rfl, empty_view_aggregates [] 0 0 [] rfl⟩

/-- C4: when the input file is absent the loader returns an empty dataset
without failing, and the page run emits exactly the loader diagnostics (the
sidebar error and the directory listing) followed by the error banner — no
metric, chart, table or export element is rendered. -/
theorem missing_file_error_path (listing : List String) (w : WidgetState) :
    (load_data none listing).1 = [] ∧
      runScript none listing w =
        [UIElem.sidebarPathInfo, UIElem.sidebarFileError,
          UIElem.sidebarDirListing listing, UIElem.errorBanner] :=
  ⟨rfl, rfl⟩

/-- C5: loading an existing file is total and never aborts: the loaded rows
correspond one-to-one, in order, to the raw rows, each distance cell going
through the coercion that sends unparseable text to the missing marker, and
the market and passthrough cells copied unchanged. -/
theorem load_never_aborts (t : RawTable) (listing : List String) :
    List.Forall₂
      (fun (rr : RawRecord) (r : Record) =>
        r.distance = toNumericCoerce rr.distanceCell ∧
          r.market = rr.market ∧ r.extra = rr.extra)
      t.rows (load_data (some t) listing).1 := by
  have h : (load_data (some t) listing).1 = t.rows.map coerceRecord := rfl
  rw [h]
  induction t.rows with
  | nil => exact List.Forall₂.nil
  | cons rr rest ih => exact List.Forall₂.cons ⟨rfl, rfl, rfl⟩ ih

/-- C6: serializing any filtered view to CSV text (header row included,
index column omitted) and re-parsing the text yields exactly the view's
grid: the same header and the same rows with the same cells in the same
order. -/
theorem filtered_view_csv_roundtrip (df : List Record) (lo hi : ℚ)
    (sel : List String) (cols : List String) :
    parseCSV (to_csv (filtered_df df lo hi sel) cols) =
      viewGrid (filtered_df df lo hi sel) cols :=
  parseCSV_to_csv (filtered_df df lo hi sel) cols

/-- C7: the targeted market export selects exactly the rows of the full,
unfiltered dataset whose market equals the chosen label — the distance range
and the multiselect play no part — and its CSV re-parses to the header row
followed by those rows with all their columns. -/
theorem market_export_spec (df : List Record) (m : String) (cols : List String) :
    marketRows df m = df.filter (fun r => decide (r.market = m)) ∧
      parseCSV (market_csv df m cols) =
        headerCells cols ::
          (df.filter (fun r => decide (r.market = m))).map recordCells := by
  have h1 : marketRows df m = df.filter (fun r => decide (r.market = m)) := by
    rw [marketRows, seriesEqMarket, maskSelect_map]
    apply List.filter_congr
    intro r _
    by_cases h : r.market = m <;> simp [h]
  refine ⟨h1, ?_⟩
  rw [market_csv, to_csv, h1]
  exact parseCSV_encodeCSV _ (by
    intro row hrow
    rcases List.mem_cons.mp hrow with h | h
    · subst h
      exact goodRow_cons2 _ _ _
    · obtain ⟨r, _, hr⟩ := List.mem_map.mp h
      rw [← hr]
      exact goodRow_cons2 _ _ _)

/-- C8: on the spec's scenario dataset, the range [0, 6] with markets A and
B keeps exactly the first two rows, and the aggregates are count 2, distinct
markets 2, mean distance 3 and maximum distance 5. -/
theorem scenario_filter_aggregates :
    filtered_df exampleDataset 0 6 ["A", "B"] =
        [⟨some 1, "A", []⟩, ⟨some 5, "B", []⟩] ∧
      (filtered_df exampleDataset 0 6 ["A", "B"]).length = 2 ∧
      nuniqueMarkets (filtered_df exampleDataset 0 6 ["A", "B"]) = 2 ∧
      meanDistance (filtered_df exampleDataset 0 6 ["A", "B"]) = some 3 ∧
      maxDistance (filtered_df exampleDataset 0 6 ["A", "B"]) = some 5 := by
  have hfv : filtered_df exampleDataset 0 6 ["A", "B"] =
      [⟨some 1, "A", []⟩, ⟨some 5, "B", []⟩] := by decide
  refine ⟨hfv, ?_, ?_, ?_, ?_⟩
  · rw [hfv]
    rfl
  · rw [hfv]
    decide
  · rw [hfv]
    simp only [meanDistance, distanceValues, List.filterMap_cons, List.filterMap_nil,
      List.isEmpty_cons, List.sum_cons, List.sum_nil, List.length_cons, List.length_nil]
    norm_num
  · rw [hfv]
    simp only [maxDistance, distanceValues, List.filterMap_cons, List.filterMap_nil,
      List.foldl_cons, List.foldl_nil]
    decide

/-- C9: the dataset cache is read-only for the whole rendering pass: a run
against a cached dataset leaves the memoization state exactly as it was —
filtering and the exports build new values and never write back. -/
theorem render_preserves_cache (st : SessionState) (df : List Record)
    (fsFile : Option RawTable) (listing : List String) (w : WidgetState)
    (h : st.cache = some df) :
    (runSession st fsFile listing w).1 = st ∧
      (runSession st fsFile listing w).1.cache = some df := by
  obtain ⟨c⟩ := st
  have hc : c = some df := h
  subst hc
  have hfst : (runSession ⟨some df⟩ fsFile listing w).1 = ⟨some df⟩ := by
    unfold runSession
    rw [show cachedLoad ⟨some df⟩ fsFile listing = (⟨some df⟩, df, []) from rfl]
    by_cases he : df.isEmpty <;> simp [he]
  exact ⟨hfst, by rw [hfst]⟩

theorem render_preserves_cache_witness :
    (⟨some exampleDataset⟩ : SessionState).cache = some exampleDataset ∧
      ((runSession ⟨some exampleDataset⟩ none [] ⟨0, 6, ["A"], "A"⟩).1 =
          ⟨some exampleDataset⟩ ∧
        (runSession ⟨some exampleDataset⟩ none [] ⟨0, 6, ["A"], "A"⟩).1.cache =
          some exampleDataset) :=
  ⟨rfl, render_preserves_cache ⟨some exampleDataset⟩ exampleDataset none []
    ⟨0, 6, ["A"], "A"⟩ rfl⟩

/-- C10: a row whose distance cell failed numeric coercion carries the
missing marker and never passes the range comparisons, whatever the filter
state; on a dataset holding such a row, even the default slider range (the
column minimum to the column maximum) with every market selected returns a
strict subset, not the whole dataset. -/
theorem nan_rows_never_filtered :
    (∀ (df : List Record) (lo hi : ℚ) (sel : List String) (r : Record),
        r ∈ filtered_df df lo hi sel → r.distance ≠ none) ∧
      minDistance missingExampleDf = some 1 ∧
      maxDistance missingExampleDf = some 1 ∧
      filtered_df missingExampleDf 1 1 ["A"] ≠ missingExampleDf := by
  refine ⟨?_, by decide, by decide, by decide⟩
  intro df lo hi sel r hr hnone
  rw [filtered_df_eq_filter] at hr
  have hp := List.of_mem_filter hr
  simp [specPass, hnone] at hp

theorem nan_rows_never_filtered_witness :
    (⟨some 1, "A", []⟩ : Record).distance ≠ none :=
  nan_rows_never_filtered.1 missingExampleDf 1 1 ["A"] ⟨some 1, "A", []⟩ (by decide)

end NRDC
